import Mathlib

/-!
Shallow embedding of `src/main.py` of dso-audio-metadata-remover.

The program is a single-pass CLI tool: `remove_metadata(input_file,
output_file=None, keep_tags=None)` classifies the file by its lowercased
path suffix, loads a tag container (MP3 via EasyID3, FLAC, or WAV with an
optional embedded ID3 sub-container), deletes every tag not in the
keep-list (KeyError on a delete is a warning and the loop continues; any
other exception is logged and re-raised), then saves the container to the
output path (defaulting to the input path) for MP3/FLAC; for WAV the ID3
sub-container is deleted in place and no save call occurs.  `main` calls
`remove_metadata`, printing the error and exiting 1 on any exception,
exiting 0 otherwise.

Modelling decisions:
* A tag container is its list of keys (tag values never influence control
  flow); mapping keys are unique, which appears as `List.Nodup` hypotheses.
* The low-level per-tag delete (`del audio[tag]`) is a parameter
  `delOp : List String → String → DelResult` so that "any exception other
  than KeyError" is representable; `mutagenDel` is the actual dict-style
  behaviour: the key is removed when present, KeyError when absent.
* File mutations are recorded as an ordered list of write events
  `(path, data)`; an empty list means the disk is untouched.
* Logging is abstracted to the counters the spec talks about: the number
  of "tag not found" warnings and whether the MP3 no-ID3-header warning
  was emitted.
-/

/-- The four outcomes of format classification by file-name suffix. -/
inductive FormatKind where
  | mp3
  | flac
  | wav
  | unsupported
deriving DecidableEq, Repr

/-- Lowercasing of a path, character by character (models Python
`str.lower()`; ASCII is all that matters for extension matching). -/
def lowerChars (s : String) : List Char := s.data.map Char.toLower

/-- Case-insensitive suffix test on a path (models
`input_file.lower().endswith(suffix)` from `src/main.py` lines 39-49). -/
def endsWithExt (s : String) (ext : String) : Bool :=
  List.isSuffixOf ext.data (lowerChars s)

/-- Format classification from `src/main.py` lines 39-53: the `.mp3`,
`.flac`, `.wav` suffixes are tried in that order on the lowercased path;
anything else is unsupported. -/
def classify (path : String) : FormatKind :=
  if endsWithExt path ".mp3" then FormatKind.mp3
  else if endsWithExt path ".flac" then FormatKind.flac
  else if endsWithExt path ".wav" then FormatKind.wav
  else FormatKind.unsupported

/-- Content of a file on disk, at the granularity the program observes.
For MP3, `none` means the file has no ID3 header (loading raises
`ID3NoHeaderError`); for WAV the boolean records whether an embedded ID3
sub-container is present; `rawFile` is content that none of the three
loaders accepts. -/
inductive FileData where
  | mp3File (tags : Option (List String))
  | flacFile (tags : List String)
  | wavFile (hasID3 : Bool)
  | rawFile
deriving DecidableEq, Repr

/-- Result of one low-level tag deletion `del audio[tag]`: success with the
new key list, a KeyError, or any other exception. -/
inductive DelResult where
  | ok (container : List String)
  | keyMissing
  | otherError
deriving DecidableEq, Repr

/-- The actual mutagen/dict behaviour of `del audio[tag]`: the key is
removed when present, KeyError when absent, and nothing else can happen. -/
def mutagenDel (c : List String) (tag : String) : DelResult :=
  if tag ∈ c then DelResult.ok (c.erase tag) else DelResult.keyMissing

/-- Instrumented outcome of the per-tag deletion loop: the final container,
how many "tag not found" warnings were logged, whether the loop aborted by
re-raising, and how many deletions were attempted. -/
structure LoopResult where
  container : List String
  keyWarnings : Nat
  fatal : Bool
  attempts : Nat
deriving DecidableEq, Repr

/-- The deletion loop of `src/main.py` lines 66-73 (MP3) and 81-88 (FLAC):
for each tag in `tags_to_remove`, attempt the deletion; a KeyError logs a
warning and continues; any other exception aborts the loop (logged, then
re-raised). -/
def deleteLoop (delOp : List String → String → DelResult) :
    List String → List String → LoopResult
  | c, [] => ⟨c, 0, false, 0⟩
  | c, tag :: rest =>
      match delOp c tag with
      | DelResult.ok c2 =>
          let r := deleteLoop delOp c2 rest
          ⟨r.container, r.keyWarnings, r.fatal, r.attempts + 1⟩
      | DelResult.keyMissing =>
          let r := deleteLoop delOp c rest
          ⟨r.container, r.keyWarnings + 1, r.fatal, r.attempts + 1⟩
      | DelResult.otherError => ⟨c, 0, true, 1⟩

/-- The `tags_to_remove` computation of `src/main.py` lines 60-64 / 75-79:
Python tests `if keep_tags:` for truthiness, so both `None` and the empty
list select the "remove every key" branch; otherwise the keys not in the
keep-list are removed. -/
def tagsToRemove (keys : List String) (keep_tags : Option (List String)) :
    List String :=
  match keep_tags with
  | some ks =>
      if ks.isEmpty then keys
      else keys.filter (fun tag => !ks.contains tag)
  | none => keys

/-- The errors `remove_metadata` can re-raise to `main`. -/
inductive RMError where
  | unsupported (msg : String)
  | loadFailed
  | deletionFailed
deriving DecidableEq, Repr

/-- Observable outcome of one `remove_metadata` call: the returned-or-raised
result, the ordered file writes performed, the number of "tag not found"
warnings, and whether the MP3 missing-header warning was logged. -/
structure RMResult where
  outcome : Except RMError Unit
  writes : List (String × FileData)
  tagWarnings : Nat
  warnedNoHeader : Bool

/-- `remove_metadata` from `src/main.py` lines 27-126, parameterised by the
low-level per-tag delete operation `delOp` (instantiated with `mutagenDel`
for actual runs).  Classification by suffix; MP3 with no ID3 header logs a
warning and returns with no writes; MP3/FLAC compute `tags_to_remove`, run
the delete loop, and on normal completion save the container to
`output_file` (defaulting to `input_file`); a fatal loop abort re-raises
before any save; WAV deletes the ID3 sub-container in place when present
and performs no separate save; an unsupported suffix raises ValueError with
the fixed message. -/
def remove_metadata (delOp : List String → String → DelResult)
    (input_file : String) (output_file : Option String)
    (keep_tags : Option (List String)) (fd : FileData) : RMResult :=
  match classify input_file with
  | FormatKind.mp3 =>
      match fd with
      | FileData.mp3File none => ⟨Except.ok (), [], 0, true⟩
      | FileData.mp3File (some keys) =>
          let out := output_file.getD input_file
          let r := deleteLoop delOp keys (tagsToRemove keys keep_tags)
          if r.fatal then
            ⟨Except.error RMError.deletionFailed, [], r.keyWarnings, false⟩
          else
            ⟨Except.ok (),
             [(out, FileData.mp3File (some r.container))],
             r.keyWarnings, false⟩
      | _ => ⟨Except.error RMError.loadFailed, [], 0, false⟩
  | FormatKind.flac =>
      match fd with
      | FileData.flacFile keys =>
          let out := output_file.getD input_file
          let r := deleteLoop delOp keys (tagsToRemove keys keep_tags)
          if r.fatal then
            ⟨Except.error RMError.deletionFailed, [], r.keyWarnings, false⟩
          else
            ⟨Except.ok (), [(out, FileData.flacFile r.container)],
             r.keyWarnings, false⟩
      | _ => ⟨Except.error RMError.loadFailed, [], 0, false⟩
  | FormatKind.wav =>
      match fd with
      | FileData.wavFile hasID3 =>
          if hasID3 then
            ⟨Except.ok (), [(input_file, FileData.wavFile false)], 0, false⟩
          else
            ⟨Except.ok (), [], 0, false⟩
      | _ => ⟨Except.error RMError.loadFailed, [], 0, false⟩
  | FormatKind.unsupported =>
      ⟨Except.error
         (RMError.unsupported
           "Unsupported file format. Supported formats: MP3, FLAC, WAV"),
       [], 0, false⟩

/-- `main` from `src/main.py` lines 128-152: `args.keep` is tested for
truthiness before being forwarded, and any exception from
`remove_metadata` yields exit code 1, otherwise exit code 0. -/
def mainEntry (input_file : String) (output_file : Option String)
    (keep : Option (List String)) (fd : FileData) : Nat × RMResult :=
  let r :=
    match keep with
    | some ks =>
        if ks.isEmpty then
          remove_metadata mutagenDel input_file output_file none fd
        else
          remove_metadata mutagenDel input_file output_file (some ks) fd
    | none => remove_metadata mutagenDel input_file output_file none fd
  match r.outcome with
  | Except.ok _ => (0, r)
  | Except.error _ => (1, r)

/-- Keys visible in a tag container stored on disk. -/
def fileKeys : FileData → List String
  | FileData.mp3File (some tags) => tags
  | FileData.mp3File none => []
  | FileData.flacFile tags => tags
  | FileData.wavFile _ => []
  | FileData.rawFile => []

/-- Whether a file carries no metadata tags at all. -/
def noTags : FileData → Bool
  | FileData.mp3File (some tags) => tags.isEmpty
  | FileData.mp3File none => true
  | FileData.flacFile tags => tags.isEmpty
  | FileData.wavFile hasID3 => !hasID3
  | FileData.rawFile => true

/-- Content found at `path` after replaying a list of write events over an
initial content (last write to `path` wins). -/
def resultContent (fd : FileData) (path : String)
    (writes : List (String × FileData)) : FileData :=
  writes.foldl (fun acc w => if w.1 = path then w.2 else acc) fd

/-- Container left by the deletion loop on an actual (mutagen) run starting
from keys `T` with keep-list `keep`. -/
def survivors (T : List String) (keep : Option (List String)) : List String :=
  (deleteLoop mutagenDel T (tagsToRemove T keep)).container

/-- A delete operation that always raises a non-KeyError exception; used to
exercise the fatal-abort path. -/
def alwaysFail : List String → String → DelResult :=
  fun _ _ => DelResult.otherError

/-! ### Helper lemmas about the deletion loop and the retention filter -/

theorem tagsToRemove_subset (T : List String) (keep : Option (List String)) :
    ∀ t ∈ tagsToRemove T keep, t ∈ T := by
  intro t ht
  cases keep with
  | none => exact ht
  | some ks =>
      unfold tagsToRemove at ht
      by_cases hks : ks.isEmpty
      · simpa [hks] using ht
      · simp only [hks, if_false] at ht
        exact List.mem_of_mem_filter ht

theorem tagsToRemove_nodup (T : List String) (keep : Option (List String))
    (hT : T.Nodup) : (tagsToRemove T keep).Nodup := by
  cases keep with
  | none => exact hT
  | some ks =>
      unfold tagsToRemove
      by_cases hks : ks.isEmpty
      · simpa [hks] using hT
      · simp only [hks, if_false]
        exact hT.filter _

theorem tagsToRemove_mem (T : List String) (keep : Option (List String)) :
    ∀ x, x ∈ tagsToRemove T keep ↔ (x ∈ T ∧ x ∉ keep.getD []) := by
  intro x
  cases keep with
  | none => simp [tagsToRemove]
  | some ks =>
      unfold tagsToRemove
      by_cases hks : ks.isEmpty
      · have hnil : ks = [] := by simpa using hks
        subst hnil
        simp
      · simp [hks, List.mem_filter]

theorem deleteLoop_mutagen_ok (ts : List String) :
    ∀ c : List String, c.Nodup → ts.Nodup → (∀ t ∈ ts, t ∈ c) →
      (deleteLoop mutagenDel c ts).fatal = false ∧
      (deleteLoop mutagenDel c ts).keyWarnings = 0 ∧
      (deleteLoop mutagenDel c ts).attempts = ts.length ∧
      (deleteLoop mutagenDel c ts).container.Nodup ∧
      ∀ x, x ∈ (deleteLoop mutagenDel c ts).container ↔ (x ∈ c ∧ x ∉ ts) := by
  induction ts with
  | nil =>
      intro c hc _ _
      refine ⟨rfl, rfl, rfl, hc, ?_⟩
      intro x
      simp [deleteLoop]
  | cons t ts ih =>
      intro c hc hnd hsub
      have htc : t ∈ c := hsub t (List.mem_cons_self t ts)
      have hstep : deleteLoop mutagenDel c (t :: ts) =
          ⟨(deleteLoop mutagenDel (c.erase t) ts).container,
           (deleteLoop mutagenDel (c.erase t) ts).keyWarnings,
           (deleteLoop mutagenDel (c.erase t) ts).fatal,
           (deleteLoop mutagenDel (c.erase t) ts).attempts + 1⟩ := by
        simp [deleteLoop, mutagenDel, htc]
      have hnd' : ts.Nodup := (List.nodup_cons.mp hnd).2
      have htnotts : t ∉ ts := (List.nodup_cons.mp hnd).1
      have hce : (c.erase t).Nodup := hc.erase t
      have hsub' : ∀ u ∈ ts, u ∈ c.erase t := by
        intro u hu
        have hne : u ≠ t := by
          intro he
          exact htnotts (he ▸ hu)
        exact hc.mem_erase_iff.mpr ⟨hne, hsub u (List.mem_cons_of_mem _ hu)⟩
      obtain ⟨f1, w1, a1, n1, m1⟩ := ih (c.erase t) hce hnd' hsub'
      rw [hstep]
      refine ⟨f1, w1, by rw [a1, List.length_cons], n1, ?_⟩
      intro x
      rw [m1 x, hc.mem_erase_iff, List.mem_cons]
      constructor
      · rintro ⟨⟨hxt, hxc⟩, hxts⟩
        exact ⟨hxc, by rintro (h | h) <;> [exact hxt h; exact hxts h]⟩
      · rintro ⟨hxc, hnot⟩
        exact ⟨⟨fun h => hnot (Or.inl h), hxc⟩, fun h => hnot (Or.inr h)⟩

theorem survivors_mem (T : List String) (keep : Option (List String))
    (hT : T.Nodup) :
    ∀ x, x ∈ survivors T keep ↔ (x ∈ T ∧ x ∈ keep.getD []) := by
  intro x
  obtain ⟨_, _, _, _, m⟩ :=
    deleteLoop_mutagen_ok (tagsToRemove T keep) T hT
      (tagsToRemove_nodup T keep hT) (tagsToRemove_subset T keep)
  rw [survivors, m x]
  rw [show (x ∉ tagsToRemove T keep) ↔ ¬(x ∈ T ∧ x ∉ keep.getD []) from
        not_congr (tagsToRemove_mem T keep x)]
  constructor
  · rintro ⟨hxT, hnot⟩
    rcases not_and_or.mp hnot with h | h
    · exact absurd hxT h
    · exact ⟨hxT, not_not.mp h⟩
  · rintro ⟨hxT, hxk⟩
    exact ⟨hxT, fun h => h.2 hxk⟩

theorem survivors_nodup (T : List String) (keep : Option (List String))
    (hT : T.Nodup) : (survivors T keep).Nodup := by
  obtain ⟨_, _, _, n, _⟩ :=
    deleteLoop_mutagen_ok (tagsToRemove T keep) T hT
      (tagsToRemove_nodup T keep hT) (tagsToRemove_subset T keep)
  exact n

theorem survivors_none (T : List String) (hT : T.Nodup) :
    survivors T none = [] := by
  refine List.eq_nil_iff_forall_not_mem.mpr ?_
  intro x hx
  have := (survivors_mem T none hT x).mp hx
  simpa using this.2

theorem deleteLoop_mutagen_total (ts : List String) :
    ∀ c : List String,
      (deleteLoop mutagenDel c ts).fatal = false ∧
      (deleteLoop mutagenDel c ts).attempts = ts.length := by
  induction ts with
  | nil => intro c; exact ⟨rfl, rfl⟩
  | cons t ts ih =>
      intro c
      by_cases htc : t ∈ c
      · have := ih (c.erase t)
        simp [deleteLoop, mutagenDel, htc, this.1, this.2]
      · have := ih c
        simp [deleteLoop, mutagenDel, htc, this.1, this.2]

theorem rm_mp3_run (input : String) (out : Option String)
    (keep : Option (List String)) (T : List String)
    (h : classify input = FormatKind.mp3) (hT : T.Nodup) :
    remove_metadata mutagenDel input out keep (FileData.mp3File (some T)) =
      ⟨Except.ok (),
       [(out.getD input, FileData.mp3File (some (survivors T keep)))],
       0, false⟩ := by
  obtain ⟨f, w, _, _, _⟩ :=
    deleteLoop_mutagen_ok (tagsToRemove T keep) T hT
      (tagsToRemove_nodup T keep hT) (tagsToRemove_subset T keep)
  simp [remove_metadata, h, f, w, survivors]

theorem rm_flac_run (input : String) (out : Option String)
    (keep : Option (List String)) (T : List String)
    (h : classify input = FormatKind.flac) (hT : T.Nodup) :
    remove_metadata mutagenDel input out keep (FileData.flacFile T) =
      ⟨Except.ok (),
       [(out.getD input, FileData.flacFile (survivors T keep))],
       0, false⟩ := by
  obtain ⟨f, w, _, _, _⟩ :=
    deleteLoop_mutagen_ok (tagsToRemove T keep) T hT
      (tagsToRemove_nodup T keep hT) (tagsToRemove_subset T keep)
  simp [remove_metadata, h, f, w, survivors]

theorem rm_never_deletionFailed (input : String) (out : Option String)
    (keep : Option (List String)) (fd : FileData) :
    (remove_metadata mutagenDel input out keep fd).outcome ≠
      Except.error RMError.deletionFailed := by
  unfold remove_metadata
  cases hcl : classify input with
  | mp3 =>
      match fd with
      | FileData.mp3File none => simp
      | FileData.mp3File (some keys) =>
          have := deleteLoop_mutagen_total (tagsToRemove keys keep) keys
          simp [this.1]
      | FileData.flacFile _ => simp
      | FileData.wavFile _ => simp
      | FileData.rawFile => simp
  | flac =>
      match fd with
      | FileData.mp3File none => simp
      | FileData.mp3File (some keys) => simp
      | FileData.flacFile keys =>
          have := deleteLoop_mutagen_total (tagsToRemove keys keep) keys
          simp [this.1]
      | FileData.wavFile _ => simp
      | FileData.rawFile => simp
  | wav =>
      match fd with
      | FileData.mp3File none => simp
      | FileData.mp3File (some _) => simp
      | FileData.flacFile _ => simp
      | FileData.wavFile b => cases b <;> simp
      | FileData.rawFile => simp
  | unsupported => simp

/-! ### Claim theorems -/

/-- C1: For every MP3 or FLAC file with initial tag-key set `T` and any
keep-list `keep`, after `remove_metadata` completes the container written
out survives with exactly the keys `T ∩ keep` (the empty set when no
keep-list is supplied), and no key not already in `T` is ever created. -/
theorem spec_c1 (input : String) (out : Option String)
    (keep : Option (List String)) (fd : FileData) (T : List String)
    (hfmt :
      (classify input = FormatKind.mp3 ∧ fd = FileData.mp3File (some T)) ∨
      (classify input = FormatKind.flac ∧ fd = FileData.flacFile T))
    (hT : T.Nodup) :
    (remove_metadata mutagenDel input out keep fd).outcome = Except.ok () ∧
    (remove_metadata mutagenDel input out keep fd).writes.length = 1 ∧
    ∀ w ∈ (remove_metadata mutagenDel input out keep fd).writes,
      ∀ x, x ∈ fileKeys w.2 ↔ (x ∈ T ∧ x ∈ keep.getD []) := by
  rcases hfmt with ⟨hcl, rfl⟩ | ⟨hcl, rfl⟩
  · rw [rm_mp3_run input out keep T hcl hT]
    refine ⟨rfl, rfl, ?_⟩
    intro w hw x
    simp only [List.mem_singleton] at hw
    subst hw
    simpa [fileKeys] using survivors_mem T keep hT x
  · rw [rm_flac_run input out keep T hcl hT]
    refine ⟨rfl, rfl, ?_⟩
    intro w hw x
    simp only [List.mem_singleton] at hw
    subst hw
    simpa [fileKeys] using survivors_mem T keep hT x

/-- Witness for C1 at the spec scenario: `song.mp3` with tags
title, artist, album, year and keep-list [title, artist]. -/
theorem spec_c1_witness :
    (remove_metadata mutagenDel "song.mp3" none (some ["title", "artist"])
      (FileData.mp3File (some ["title", "artist", "album", "year"]))).outcome
        = Except.ok () ∧
    (remove_metadata mutagenDel "song.mp3" none (some ["title", "artist"])
      (FileData.mp3File (some ["title", "artist", "album", "year"]))).writes.length
        = 1 ∧
    ∀ w ∈ (remove_metadata mutagenDel "song.mp3" none (some ["title", "artist"])
      (FileData.mp3File (some ["title", "artist", "album", "year"]))).writes,
      ∀ x, x ∈ fileKeys w.2 ↔
        (x ∈ ["title", "artist", "album", "year"] ∧
         x ∈ (some ["title", "artist"] : Option (List String)).getD []) :=
  spec_c1 "song.mp3" none (some ["title", "artist"])
    (FileData.mp3File (some ["title", "artist", "album", "year"]))
    ["title", "artist", "album", "year"]
    (Or.inl ⟨by decide, rfl⟩) (by decide)

/-- C2: The format is determined solely by the path suffix compared
case-insensitively, `.mp3` then `.flac` then `.wav`; any other path makes
`remove_metadata` raise the fixed unsupported-format error with no file
mutation, and the process exits with code 1. -/
theorem spec_c2 (input : String) (out : Option String)
    (keep : Option (List String)) (fd : FileData) :
    (endsWithExt input ".mp3" = true → classify input = FormatKind.mp3) ∧
    (endsWithExt input ".mp3" = false → endsWithExt input ".flac" = true →
      classify input = FormatKind.flac) ∧
    (endsWithExt input ".mp3" = false → endsWithExt input ".flac" = false →
      endsWithExt input ".wav" = true → classify input = FormatKind.wav) ∧
    (endsWithExt input ".mp3" = false → endsWithExt input ".flac" = false →
      endsWithExt input ".wav" = false →
      classify input = FormatKind.unsupported ∧
      (remove_metadata mutagenDel input out keep fd).outcome =
        Except.error (RMError.unsupported
          "Unsupported file format. Supported formats: MP3, FLAC, WAV") ∧
      (remove_metadata mutagenDel input out keep fd).writes = [] ∧
      (mainEntry input out keep fd).1 = 1) := by
  refine ⟨?_, ?_, ?_, ?_⟩
  · intro h1
    simp [classify, h1]
  · intro h1 h2
    simp [classify, h1, h2]
  · intro h1 h2 h3
    simp [classify, h1, h2, h3]
  · intro h1 h2 h3
    have hcl : classify input = FormatKind.unsupported := by
      simp [classify, h1, h2, h3]
    have hrm : ∀ k, remove_metadata mutagenDel input out k fd =
        ⟨Except.error (RMError.unsupported
           "Unsupported file format. Supported formats: MP3, FLAC, WAV"),
         [], 0, false⟩ := by
      intro k
      simp [remove_metadata, hcl]
    refine ⟨hcl, by rw [hrm keep], by rw [hrm keep], ?_⟩
    unfold mainEntry
    cases keep with
    | none => simp [hrm]
    | some ks =>
        by_cases hks : ks.isEmpty <;> simp [hks, hrm]

/-- Witness for C2 at the unsupported path `a.ogg`. -/
theorem spec_c2_witness :
    classify "a.ogg" = FormatKind.unsupported ∧
    (mainEntry "a.ogg" none none (FileData.mp3File (some []))).1 = 1 := by
  have h := (spec_c2 "a.ogg" none none (FileData.mp3File (some []))).2.2.2
    (by decide) (by decide) (by decide)
  exact ⟨h.1, h.2.2.2⟩

/-- C3: An MP3 input with no ID3 tag header makes `remove_metadata` log the
no-header warning and return with no deletion and no save, so no write
occurs and the process still exits with code 0. -/
theorem spec_c3 (input : String) (out : Option String)
    (keep : Option (List String)) (h : classify input = FormatKind.mp3) :
    remove_metadata mutagenDel input out keep (FileData.mp3File none) =
      ⟨Except.ok (), [], 0, true⟩ ∧
    (mainEntry input out keep (FileData.mp3File none)).1 = 0 ∧
    (mainEntry input out keep (FileData.mp3File none)).2.writes = [] := by
  have hrm : ∀ k, remove_metadata mutagenDel input out k (FileData.mp3File none) =
      ⟨Except.ok (), [], 0, true⟩ := by
    intro k
    simp [remove_metadata, h]
  have hmain : mainEntry input out keep (FileData.mp3File none) =
      (0, ⟨Except.ok (), [], 0, true⟩) := by
    unfold mainEntry
    cases keep with
    | none => simp [hrm]
    | some ks =>
        by_cases hks : ks.isEmpty <;> simp [hks, hrm]
  exact ⟨hrm keep, by rw [hmain], by rw [hmain]⟩

/-- Witness for C3 at `a.mp3` with no ID3 header. -/
theorem spec_c3_witness :
    remove_metadata mutagenDel "a.mp3" none none (FileData.mp3File none) =
      ⟨Except.ok (), [], 0, true⟩ ∧
    (mainEntry "a.mp3" none none (FileData.mp3File none)).1 = 0 ∧
    (mainEntry "a.mp3" none none (FileData.mp3File none)).2.writes = [] :=
  spec_c3 "a.mp3" none none (by decide)

/-- C4: For every WAV input the keep-list and output-path arguments have no
effect; a present ID3 sub-container is deleted wholesale in place on the
input file with no separate save, and an absent one means no mutation. -/
theorem spec_c4 (delOp : List String → String → DelResult) (input : String)
    (out : Option String) (keep : Option (List String)) (b : Bool)
    (h : classify input = FormatKind.wav) :
    remove_metadata delOp input out keep (FileData.wavFile b) =
      remove_metadata mutagenDel input none none (FileData.wavFile b) ∧
    (b = true →
      remove_metadata delOp input out keep (FileData.wavFile b) =
        ⟨Except.ok (), [(input, FileData.wavFile false)], 0, false⟩) ∧
    (b = false →
      remove_metadata delOp input out keep (FileData.wavFile b) =
        ⟨Except.ok (), [], 0, false⟩) := by
  cases b <;> simp [remove_metadata, h]

/-- Witness for C4 at `a.wav` carrying an ID3 sub-container, with a
keep-list and an output path supplied. -/
theorem spec_c4_witness :
    remove_metadata alwaysFail "a.wav" (some "b.wav") (some ["title"])
        (FileData.wavFile true) =
      remove_metadata mutagenDel "a.wav" none none (FileData.wavFile true) ∧
    remove_metadata alwaysFail "a.wav" (some "b.wav") (some ["title"])
        (FileData.wavFile true) =
      ⟨Except.ok (), [("a.wav", FileData.wavFile false)], 0, false⟩ := by
  have h := spec_c4 alwaysFail "a.wav" (some "b.wav") (some ["title"]) true
    (by decide)
  exact ⟨h.1, h.2.1 rfl⟩

/-- C5: On an MP3/FLAC run, a deletion failure other than a missing key
aborts immediately: the failing attempt is the last one, no further tags
are attempted, the save step is never reached, and the on-disk file is
left unmodified. -/
theorem spec_c5 (delOp : List String → String → DelResult) (input : String)
    (out : Option String) (keep : Option (List String)) (fd : FileData)
    (T : List String)
    (hfmt :
      (classify input = FormatKind.mp3 ∧ fd = FileData.mp3File (some T)) ∨
      (classify input = FormatKind.flac ∧ fd = FileData.flacFile T))
    (hfatal : (deleteLoop delOp T (tagsToRemove T keep)).fatal = true) :
    (remove_metadata delOp input out keep fd).writes = [] ∧
    (remove_metadata delOp input out keep fd).outcome =
      Except.error RMError.deletionFailed ∧
    ∀ c tag rest, delOp c tag = DelResult.otherError →
      deleteLoop delOp c (tag :: rest) = ⟨c, 0, true, 1⟩ := by
  have hrm : remove_metadata delOp input out keep fd =
      ⟨Except.error RMError.deletionFailed, [],
       (deleteLoop delOp T (tagsToRemove T keep)).keyWarnings, false⟩ := by
    rcases hfmt with ⟨hcl, rfl⟩ | ⟨hcl, rfl⟩ <;>
      simp [remove_metadata, hcl, hfatal]
  rw [hrm]
  refine ⟨rfl, rfl, ?_⟩
  intro c tag rest hop
  simp [deleteLoop, hop]

/-- Witness for C5: a delete operation that always raises on `a.flac` with
one tag aborts the run with no writes. -/
theorem spec_c5_witness :
    (remove_metadata alwaysFail "a.flac" none none
      (FileData.flacFile ["x"])).writes = [] ∧
    (remove_metadata alwaysFail "a.flac" none none
      (FileData.flacFile ["x"])).outcome =
        Except.error RMError.deletionFailed ∧
    ∀ c tag rest, alwaysFail c tag = DelResult.otherError →
      deleteLoop alwaysFail c (tag :: rest) = ⟨c, 0, true, 1⟩ :=
  spec_c5 alwaysFail "a.flac" none none (FileData.flacFile ["x"]) ["x"]
    (Or.inr ⟨by decide, rfl⟩) (by decide)

/-- C6: On a successful MP3/FLAC run the single save goes to the explicit
output path when given and to the input path otherwise; with no keep-list
the saved container is empty.  Instantiated by the witness at the spec
scenario remove(track.flac, out.flac, keep=None) with tags {comment}. -/
theorem spec_c6 (input : String) (out : Option String)
    (keep : Option (List String)) (fd : FileData) (T : List String)
    (hfmt :
      (classify input = FormatKind.mp3 ∧ fd = FileData.mp3File (some T)) ∨
      (classify input = FormatKind.flac ∧ fd = FileData.flacFile T))
    (hT : T.Nodup) :
    ((remove_metadata mutagenDel input out keep fd).writes).map Prod.fst =
      [out.getD input] ∧
    (keep = none →
      ∀ w ∈ (remove_metadata mutagenDel input out keep fd).writes,
        fileKeys w.2 = []) := by
  rcases hfmt with ⟨hcl, rfl⟩ | ⟨hcl, rfl⟩
  · rw [rm_mp3_run input out keep T hcl hT]
    refine ⟨rfl, ?_⟩
    rintro rfl w hw
    simp only [List.mem_singleton] at hw
    subst hw
    simp [fileKeys, survivors_none T hT]
  · rw [rm_flac_run input out keep T hcl hT]
    refine ⟨rfl, ?_⟩
    rintro rfl w hw
    simp only [List.mem_singleton] at hw
    subst hw
    simp [fileKeys, survivors_none T hT]

/-- Witness for C6 at the spec scenario: `track.flac` with tag set
{comment}, explicit output `out.flac`, no keep-list. -/
theorem spec_c6_witness :
    ((remove_metadata mutagenDel "track.flac" (some "out.flac") none
        (FileData.flacFile ["comment"])).writes).map Prod.fst =
      [(some "out.flac").getD "track.flac"] ∧
    ((none : Option (List String)) = none →
      ∀ w ∈ (remove_metadata mutagenDel "track.flac" (some "out.flac") none
          (FileData.flacFile ["comment"])).writes,
        fileKeys w.2 = []) :=
  spec_c6 "track.flac" (some "out.flac") none
    (FileData.flacFile ["comment"]) ["comment"]
    (Or.inr ⟨by decide, rfl⟩) (by decide)

/-- C7: Attempting to delete a tag name that is not present never raises
and is never fatal on an actual run: the loop logs one more warning for the
missing tag and still processes every tag to completion, and
`remove_metadata` never surfaces a deletion failure. -/
theorem spec_c7 (c ts : List String) (tag : String) (h : tag ∉ c) :
    (deleteLoop mutagenDel c ts).fatal = false ∧
    (deleteLoop mutagenDel c ts).attempts = ts.length ∧
    (deleteLoop mutagenDel c (tag :: ts)).fatal = false ∧
    (deleteLoop mutagenDel c (tag :: ts)).attempts = ts.length + 1 ∧
    (deleteLoop mutagenDel c (tag :: ts)).keyWarnings =
      (deleteLoop mutagenDel c ts).keyWarnings + 1 ∧
    ∀ input out keep fd,
      (remove_metadata mutagenDel input out keep fd).outcome ≠
        Except.error RMError.deletionFailed := by
  have h1 := deleteLoop_mutagen_total ts c
  have hstep : deleteLoop mutagenDel c (tag :: ts) =
      ⟨(deleteLoop mutagenDel c ts).container,
       (deleteLoop mutagenDel c ts).keyWarnings + 1,
       (deleteLoop mutagenDel c ts).fatal,
       (deleteLoop mutagenDel c ts).attempts + 1⟩ := by
    simp [deleteLoop, mutagenDel, h]
  refine ⟨h1.1, h1.2, ?_, ?_, ?_,
    fun input out keep fd => rm_never_deletionFailed input out keep fd⟩
  · rw [hstep]
    exact h1.1
  · rw [hstep]
    simp [h1.2]
  · rw [hstep]

/-- Witness for C7: deleting the absent tag x from the container [a]. -/
theorem spec_c7_witness :
    (deleteLoop mutagenDel ["a"] ["b"]).fatal = false ∧
    (deleteLoop mutagenDel ["a"] ["b"]).attempts = (["b"] : List String).length ∧
    (deleteLoop mutagenDel ["a"] ("x" :: ["b"])).fatal = false ∧
    (deleteLoop mutagenDel ["a"] ("x" :: ["b"])).attempts =
      (["b"] : List String).length + 1 ∧
    (deleteLoop mutagenDel ["a"] ("x" :: ["b"])).keyWarnings =
      (deleteLoop mutagenDel ["a"] ["b"]).keyWarnings + 1 ∧
    ∀ input out keep fd,
      (remove_metadata mutagenDel input out keep fd).outcome ≠
        Except.error RMError.deletionFailed :=
  spec_c7 ["a"] ["b"] "x" (by decide)

/-- C8: For every supported format, removal with no keep-list leaves zero
tags in the resulting file, and removal is idempotent: a second run on the
result succeeds and leaves the file unchanged. -/
theorem spec_c8 (input : String) (fd : FileData) (T : List String) (b : Bool)
    (hfmt :
      (classify input = FormatKind.mp3 ∧ fd = FileData.mp3File (some T) ∧
        T.Nodup) ∨
      (classify input = FormatKind.flac ∧ fd = FileData.flacFile T ∧
        T.Nodup) ∨
      (classify input = FormatKind.wav ∧ fd = FileData.wavFile b)) :
    (remove_metadata mutagenDel input none none fd).outcome = Except.ok () ∧
    noTags (resultContent fd input
      (remove_metadata mutagenDel input none none fd).writes) = true ∧
    (remove_metadata mutagenDel input none none
      (resultContent fd input
        (remove_metadata mutagenDel input none none fd).writes)).outcome =
      Except.ok () ∧
    resultContent
      (resultContent fd input
        (remove_metadata mutagenDel input none none fd).writes)
      input
      (remove_metadata mutagenDel input none none
        (resultContent fd input
          (remove_metadata mutagenDel input none none fd).writes)).writes =
      resultContent fd input
        (remove_metadata mutagenDel input none none fd).writes := by
  rcases hfmt with ⟨hcl, rfl, hT⟩ | ⟨hcl, rfl, hT⟩ | ⟨hcl, rfl⟩
  · have h1 := rm_mp3_run input none none T hcl hT
    rw [survivors_none T hT] at h1
    have hw1 : (remove_metadata mutagenDel input none none
        (FileData.mp3File (some T))).writes =
        [(input, FileData.mp3File (some []))] := by
      simp [h1]
    have hfd1 : resultContent (FileData.mp3File (some T)) input
        [(input, FileData.mp3File (some []))] = FileData.mp3File (some []) := by
      simp [resultContent]
    have h2 := rm_mp3_run input none none [] hcl List.nodup_nil
    rw [survivors_none [] List.nodup_nil] at h2
    refine ⟨by rw [h1], ?_, ?_, ?_⟩
    · rw [hw1, hfd1]
      rfl
    · rw [hw1, hfd1, h2]
    · rw [hw1, hfd1, h2]
      simp [resultContent]
  · have h1 := rm_flac_run input none none T hcl hT
    rw [survivors_none T hT] at h1
    have hw1 : (remove_metadata mutagenDel input none none
        (FileData.flacFile T)).writes = [(input, FileData.flacFile [])] := by
      simp [h1]
    have hfd1 : resultContent (FileData.flacFile T) input
        [(input, FileData.flacFile [])] = FileData.flacFile [] := by
      simp [resultContent]
    have h2 := rm_flac_run input none none [] hcl List.nodup_nil
    rw [survivors_none [] List.nodup_nil] at h2
    refine ⟨by rw [h1], ?_, ?_, ?_⟩
    · rw [hw1, hfd1]
      rfl
    · rw [hw1, hfd1, h2]
    · rw [hw1, hfd1, h2]
      simp [resultContent]
  · cases b with
    | true =>
        have h1 : remove_metadata mutagenDel input none none
            (FileData.wavFile true) =
            ⟨Except.ok (), [(input, FileData.wavFile false)], 0, false⟩ := by
          simp [remove_metadata, hcl]
        have h2 : remove_metadata mutagenDel input none none
            (FileData.wavFile false) =
            ⟨Except.ok (), [], 0, false⟩ := by
          simp [remove_metadata, hcl]
        refine ⟨by rw [h1], ?_, ?_, ?_⟩ <;>
          simp [h1, h2, resultContent, noTags]
    | false =>
        have h2 : remove_metadata mutagenDel input none none
            (FileData.wavFile false) =
            ⟨Except.ok (), [], 0, false⟩ := by
          simp [remove_metadata, hcl]
        refine ⟨by rw [h2], ?_, ?_, ?_⟩ <;>
          simp [h2, resultContent, noTags]

/-- Witness for C8 at `a.flac` with tag set {comment} and no keep-list. -/
theorem spec_c8_witness :
    (remove_metadata mutagenDel "a.flac" none none
      (FileData.flacFile ["comment"])).outcome = Except.ok () ∧
    noTags (resultContent (FileData.flacFile ["comment"]) "a.flac"
      (remove_metadata mutagenDel "a.flac" none none
        (FileData.flacFile ["comment"])).writes) = true ∧
    (remove_metadata mutagenDel "a.flac" none none
      (resultContent (FileData.flacFile ["comment"]) "a.flac"
        (remove_metadata mutagenDel "a.flac" none none
          (FileData.flacFile ["comment"])).writes)).outcome = Except.ok () ∧
    resultContent
      (resultContent (FileData.flacFile ["comment"]) "a.flac"
        (remove_metadata mutagenDel "a.flac" none none
          (FileData.flacFile ["comment"])).writes)
      "a.flac"
      (remove_metadata mutagenDel "a.flac" none none
        (resultContent (FileData.flacFile ["comment"]) "a.flac"
          (remove_metadata mutagenDel "a.flac" none none
            (FileData.flacFile ["comment"])).writes)).writes =
      resultContent (FileData.flacFile ["comment"]) "a.flac"
        (remove_metadata mutagenDel "a.flac" none none
          (FileData.flacFile ["comment"])).writes :=
  spec_c8 "a.flac" (FileData.flacFile ["comment"]) ["comment"] true
    (Or.inr (Or.inl ⟨by decide, rfl, by decide⟩))

/-- C9: In an actual MP3/FLAC run the missing-key branch of the delete loop
is unreachable: with the container keys unique, every tag listed in
`tags_to_remove` is deleted exactly once, so no tag-not-found warning is
ever logged. -/
theorem spec_c9 (input : String) (out : Option String)
    (keep : Option (List String)) (fd : FileData) (T : List String)
    (hfmt :
      (classify input = FormatKind.mp3 ∧ fd = FileData.mp3File (some T)) ∨
      (classify input = FormatKind.flac ∧ fd = FileData.flacFile T))
    (hT : T.Nodup) :
    (remove_metadata mutagenDel input out keep fd).tagWarnings = 0 ∧
    (deleteLoop mutagenDel T (tagsToRemove T keep)).keyWarnings = 0 ∧
    (deleteLoop mutagenDel T (tagsToRemove T keep)).attempts =
      (tagsToRemove T keep).length := by
  obtain ⟨_, w, a, _, _⟩ :=
    deleteLoop_mutagen_ok (tagsToRemove T keep) T hT
      (tagsToRemove_nodup T keep hT) (tagsToRemove_subset T keep)
  refine ⟨?_, w, a⟩
  rcases hfmt with ⟨hcl, rfl⟩ | ⟨hcl, rfl⟩
  · rw [rm_mp3_run input out keep T hcl hT]
  · rw [rm_flac_run input out keep T hcl hT]

/-- Witness for C9 at `song.mp3` with four unique tags and a keep-list. -/
theorem spec_c9_witness :
    (remove_metadata mutagenDel "song.mp3" none (some ["title"])
      (FileData.mp3File (some ["title", "artist", "album"]))).tagWarnings
        = 0 ∧
    (deleteLoop mutagenDel ["title", "artist", "album"]
      (tagsToRemove ["title", "artist", "album"]
        (some ["title"]))).keyWarnings = 0 ∧
    (deleteLoop mutagenDel ["title", "artist", "album"]
      (tagsToRemove ["title", "artist", "album"] (some ["title"]))).attempts =
      (tagsToRemove ["title", "artist", "album"] (some ["title"])).length :=
  spec_c9 "song.mp3" none (some ["title"])
    (FileData.mp3File (some ["title", "artist", "album"]))
    ["title", "artist", "album"] (Or.inl ⟨by decide, rfl⟩) (by decide)

/-- C10: Calling `remove_metadata` with an empty keep-list behaves exactly
like calling it with no keep-list, for every format, file content and
delete behaviour: both the top-level dispatch and the removal logic test
the keep-list for truthiness, so every tag is deleted in both cases. -/
theorem spec_c10 (delOp : List String → String → DelResult) (input : String)
    (out : Option String) (fd : FileData) :
    remove_metadata delOp input out (some []) fd =
      remove_metadata delOp input out none fd ∧
    mainEntry input out (some []) fd = mainEntry input out none fd ∧
    ∀ T : List String,
      tagsToRemove T (some []) = T ∧ tagsToRemove T none = T := by
  have htr : ∀ T : List String,
      tagsToRemove T (some []) = tagsToRemove T none := by
    intro T
    simp [tagsToRemove]
  refine ⟨?_, ?_, ?_⟩
  · unfold remove_metadata
    simp only [htr]
  · simp [mainEntry]
  · intro T
    exact ⟨by simp [tagsToRemove], rfl⟩
